import Mathlib

/-!
Shallow embedding of the CNCF Slack reconciliation plugin
(`src/src/permissions/plugins/cncfSlack/index.ts`).

Pure model: the Slack Web API and the GitHub-hosted `people.json` file are
replaced by explicit parameters (the fetched group list, the parsed people
list, the id the remote would assign to a freshly created group); the
`MessageBuilder` sink is replaced by a list of structured change events and
the mutating API calls by a list of structured mutations, returned in the
order the original code would emit/issue them.
-/

/-- Mirrors the TypeScript interface `UserGroup` (fields used by the plugin). -/
structure UserGroup where
  id : String
  date_delete : Nat
  name : String
  handle : String
  users : List String
  is_external : Bool
deriving DecidableEq, Repr

/-- Mirrors the TypeScript interface `CncfPerson`. -/
structure CncfPerson where
  name : String
  email : String
  github : String
  slack_id : String
  category : String
deriving DecidableEq, Repr

/-- The `slack` field of a `TeamConfig`: absent, a boolean, or a handle string.
`missing`, `flag false` and `strHandle ""` are the JavaScript-falsy values on
which `handleTeam` returns immediately. -/
inductive SlackConfig where
  | missing
  | flag (b : Bool)
  | strHandle (s : String)
deriving DecidableEq, Repr

/-- The part of `TeamConfig` read by the plugin. -/
structure TeamConfig where
  name : String
  displayName : Option String
  slack : SlackConfig
  maintainers : List String
  members : List String
deriving DecidableEq, Repr

/-- Structured form of the `builder.addContext` report messages emitted by
`handleTeam`, in emission order.  Each constructor carries exactly the data
interpolated into the corresponding message template. -/
inductive ChangeEvent where
  | groupCreated (handle : String)
  | groupRenamed (handle oldName newName : String)
  | membersRemoved (handle : String) (identities : List String)
  | membersAdded (handle : String) (identities : List String)
deriving DecidableEq, Repr

/-- Structured form of the mutating Slack API calls issued by `handleTeam`
(`usergroups.create`, `usergroups.update`, `usergroups.users.update`).  The
wire format of `setUsers` is the comma join of the id list. -/
inductive Mutation where
  | createGroup (handle name : String)
  | updateGroupName (usergroup newName : String)
  | setUsers (usergroup : String) (users : List String)
deriving DecidableEq, Repr

/-- Whether `pat` is a prefix of `l`, on character lists. -/
def isPrefixOfChars : List Char → List Char → Bool
  | [], _ => true
  | _ :: _, [] => false
  | p :: ps, c :: cs => p == c && isPrefixOfChars ps cs

/-- Remove the first occurrence of `pat` from `l` (JavaScript
`String.prototype.replace(pat, '')` with a string pattern replaces only the
first occurrence). -/
def replaceFirstAux (pat : List Char) : List Char → List Char
  | [] => []
  | c :: cs =>
    if isPrefixOfChars pat (c :: cs) then List.drop pat.length (c :: cs)
    else c :: replaceFirstAux pat cs

/-- JavaScript `s.replace(pat, '')` for a plain string pattern. -/
def replaceFirstStr (s pat : String) : String := ⟨replaceFirstAux pat.data s.data⟩

/-- Line 74 of the source: `entry.github.replace('https://github.com/', '').replace('//$/', '')`.
Both arguments are plain strings, so the second replace removes a literal
`//$/` substring (not a regular expression). -/
def normalizeGithub (s : String) : String :=
  replaceFirstStr (replaceFirstStr s "https://github.com/") "//$/"

/-- JavaScript `String.prototype.toLowerCase` (ASCII-faithful). -/
def jsToLower (s : String) : String := ⟨s.data.map Char.toLower⟩

/-- JavaScript `Array.prototype.join(sep)`. -/
def joinWith (sep : String) : List String → String
  | [] => ""
  | [x] => x
  | x :: y :: xs => x ++ sep ++ joinWith sep (y :: xs)

/-- Lines 82-85 of the source, verbatim:
`if (arr.length <= 1) return arr.join(','); return arr.slice(0, arr.length - 2).join(', ') + ' and ' + arr[arr.length - 1]`. -/
def englishCommaJoin (arr : List String) : String :=
  if arr.length ≤ 1 then joinWith "," arr
  else joinWith ", " (arr.take (arr.length - 2)) ++ " and " ++ arr.getLastD ""

/-- Lexicographic code-unit comparison on character lists: the order used by
JavaScript's default `Array.prototype.sort()` comparator on strings. -/
def charListLe : List Char → List Char → Bool
  | [], _ => true
  | _ :: _, [] => false
  | a :: as, b :: bs =>
    if Nat.blt a.toNat b.toNat then true
    else if Nat.blt b.toNat a.toNat then false
    else charListLe as bs

/-- Lexicographic order on strings, by code units. -/
def strLe (x y : String) : Bool := charListLe x.data y.data

/-- Insert a string into a sorted list of strings. -/
def insertSortedStr (x : String) : List String → List String
  | [] => [x]
  | y :: ys => if strLe x y then x :: y :: ys else y :: insertSortedStr x ys

/-- Model of JavaScript `Array.prototype.sort()` on string arrays (default
comparator: lexicographic).  Any total-order sort yields the same canonical
form, which is all the plugin relies on (it only compares sorted lists and
iterates them). -/
def jsSort (l : List String) : List String := l.foldr insertSortedStr []

/-- `Map.get` on an insertion list where newer bindings shadow older ones
(models `Map.set` overwrite semantics; the plugin never iterates the maps). -/
def mget (m : List (String × CncfPerson)) (k : String) : Option CncfPerson :=
  (m.find? (fun kv => kv.fst == k)).map (fun kv => kv.snd)

/-- The pair of indexes built by `getAllUsers`. -/
structure UserMaps where
  cncfBySlackID : List (String × CncfPerson)
  cncfByGithub : List (String × CncfPerson)
deriving DecidableEq, Repr

/-- Loop body of `getAllUsers` (lines 70-78): entries whose `slack_id` is the
empty string are skipped; otherwise the GitHub profile-URL prefix is stripped
and the entry is indexed under both its `slack_id` and its stripped `github`
name. -/
def indexPerson (maps : UserMaps) (entry : CncfPerson) : UserMaps :=
  if entry.slack_id == "" then maps
  else
    { cncfBySlackID :=
        (entry.slack_id, { entry with github := normalizeGithub entry.github }) ::
          maps.cncfBySlackID,
      cncfByGithub :=
        (normalizeGithub entry.github, { entry with github := normalizeGithub entry.github }) ::
          maps.cncfByGithub }

/-- `getAllUsers` as a pure function of the parsed `people.json` contents. -/
def getAllUsers (peopleData : List CncfPerson) : UserMaps :=
  peopleData.foldl indexPerson ⟨[], []⟩

/-- The parameters `getAllGroups` passes to `usergroups.list` (line 47-50). -/
structure UsergroupsListRequest where
  include_users : Bool
  include_disabled : Bool
deriving DecidableEq, Repr

/-- `usergroups.list({ include_users: true, include_disabled: true })`. -/
def usergroupsListRequest : UsergroupsListRequest := ⟨true, true⟩

/-- `getAllGroups` as a pure function of the fetched list (line 51):
`result.usergroups.filter((g) => !g.is_external)`. -/
def getAllGroups (fetched : List UserGroup) : List UserGroup :=
  fetched.filter (fun g => !g.is_external)

/-- `team.displayName || team.name` (line 96); the empty string is falsy. -/
def userGroupNameOf (team : TeamConfig) : String :=
  match team.displayName with
  | some d => if d == "" then team.name else d
  | none => team.name

/-- Lines 90 and 95: `if (!team.slack) return;` then
`team.slack === true ? team.name : team.slack`. -/
def resolveHandle (team : TeamConfig) : Option String :=
  match team.slack with
  | .missing => none
  | .flag b => if b then some team.name else none
  | .strHandle s => if s == "" then none else some s

/-- The local `existingGroup` object constructed after a creation
(lines 113-120 live / 124-131 dry-run). -/
def mkNewGroup (groupName ugName gid : String) : UserGroup :=
  { id := gid, date_delete := 0, name := ugName, handle := groupName,
    users := [], is_external := false }

/-- Lines 156-161: `for (const username of team.maintainers.concat(team.members))`
look up `cncfByGithub.get(username.toLowerCase())`, skip misses, collect
`slack_id`s.  No deduplication is performed. -/
def resolveExpected (team : TeamConfig) (maps : UserMaps) : List String :=
  (team.maintainers ++ team.members).filterMap
    (fun username => (mget maps.cncfByGithub (jsToLower username)).map (fun p => p.slack_id))

/-- Lines 170-174: ids of `expectedUserIds` (already sorted in place) that are
not `include`d in the group's (already sorted) `users`. -/
def toAddIds (sortedUsers sortedExpected : List String) : List String :=
  sortedExpected.filter (fun uid => !sortedUsers.contains uid)

/-- Lines 175-180: ids of the group's `users` not in `expectedUserIds`. -/
def toRemoveIds (sortedUsers sortedExpected : List String) : List String :=
  sortedUsers.filter (fun uid => !sortedExpected.contains uid)

/-- Line 172: `cncfBySlackID.get(userId)!.github` — the non-null assertion is
modelled by a sentinel that a theorem shows unreachable. -/
def addIdentity (maps : UserMaps) (uid : String) : String :=
  match mget maps.cncfBySlackID uid with
  | some p => p.github
  | none => "undefined"

/-- Lines 177-178: removed members are rendered as `` `github` `` when the
directory still resolves the id, else as `<@id>`. -/
def removeIdentity (maps : UserMaps) (uid : String) : String :=
  match mget maps.cncfBySlackID uid with
  | some p => "`" ++ p.github ++ "`"
  | none => "<@" ++ uid ++ ">"

/-- Lines 135-147: the rename message, emitted when the group's name differs
from the desired display name. -/
def renameEvents (g : UserGroup) (ugName : String) : List ChangeEvent :=
  if g.name == ugName then []
  else [ChangeEvent.groupRenamed g.handle g.name ugName]

/-- Lines 148-153: the `usergroups.update` call, issued when the name differs
and the run is live. -/
def renameMuts (dryRun : Bool) (g : UserGroup) (ugName : String) : List Mutation :=
  if g.name == ugName then []
  else if dryRun then [] else [Mutation.updateGroupName g.id ugName]

/-- Lines 163-207: sort both sides, return early when equal, otherwise emit
the removal message (line 182) then the addition message (line 195). -/
def memberEvents (maps : UserMaps) (g : UserGroup) (expectedUserIds : List String) :
    List ChangeEvent :=
  if jsSort g.users == jsSort expectedUserIds then []
  else
    (if ((toRemoveIds (jsSort g.users) (jsSort expectedUserIds)).map
          (removeIdentity maps)).isEmpty then []
     else [ChangeEvent.membersRemoved g.handle
            ((toRemoveIds (jsSort g.users) (jsSort expectedUserIds)).map
              (removeIdentity maps))]) ++
    (if ((toAddIds (jsSort g.users) (jsSort expectedUserIds)).map
          (addIdentity maps)).isEmpty then []
     else [ChangeEvent.membersAdded g.handle
            ((toAddIds (jsSort g.users) (jsSort expectedUserIds)).map
              (addIdentity maps))])

/-- Lines 208-213: the single batched `usergroups.users.update` call with the
full sorted expected id list, issued when the run is live and the membership
comparison on line 166 did not short-circuit. -/
def memberMuts (dryRun : Bool) (g : UserGroup) (expectedUserIds : List String) :
    List Mutation :=
  if jsSort g.users == jsSort expectedUserIds then []
  else if dryRun then [] else [Mutation.setUsers g.id (jsSort expectedUserIds)]

/-- `CncfSlackPlugin.handleTeam` as a pure function.  `groups` is the (already
filtered) group list, `maps` the directory indexes, `gid` the id the remote
would assign on creation.  Returns the emitted change events and the issued
mutations, in order.  The live-mode cache invalidation and refetch after a
creation (lines 121-122) has no observable effect in the model: the refetched
list is never read again by the source. -/
def handleTeam (team : TeamConfig) (groups : List UserGroup) (maps : UserMaps)
    (dryRun : Bool) (gid : String) : List ChangeEvent × List Mutation :=
  match resolveHandle team with
  | none => ([], [])
  | some groupName =>
    match groups.find? (fun g => g.handle == groupName) with
    | some g =>
        (renameEvents g (userGroupNameOf team) ++
           memberEvents maps g (resolveExpected team maps),
         renameMuts dryRun g (userGroupNameOf team) ++
           memberMuts dryRun g (resolveExpected team maps))
    | none =>
        (ChangeEvent.groupCreated groupName ::
            (renameEvents (mkNewGroup groupName (userGroupNameOf team)
                (if dryRun then "NEW_USER_GROUP_ID" else gid)) (userGroupNameOf team) ++
             memberEvents maps (mkNewGroup groupName (userGroupNameOf team)
                (if dryRun then "NEW_USER_GROUP_ID" else gid)) (resolveExpected team maps)),
         (if dryRun then [] else [Mutation.createGroup groupName (userGroupNameOf team)]) ++
            renameMuts dryRun (mkNewGroup groupName (userGroupNameOf team)
                (if dryRun then "NEW_USER_GROUP_ID" else gid)) (userGroupNameOf team) ++
            memberMuts dryRun (mkNewGroup groupName (userGroupNameOf team)
                (if dryRun then "NEW_USER_GROUP_ID" else gid)) (resolveExpected team maps))

/-- Model of the remote system applying one mutation: creation appends a group
with the remote-assigned id `gid`; renames and membership updates rewrite the
group with the targeted id. -/
def applyMutation (gid : String) (groups : List UserGroup) : Mutation → List UserGroup
  | .createGroup handle name => groups ++ [mkNewGroup handle name gid]
  | .updateGroupName ugid newName =>
      groups.map (fun g => if g.id == ugid then { g with name := newName } else g)
  | .setUsers ugid users =>
      groups.map (fun g => if g.id == ugid then { g with users := users } else g)

/-- Apply a run's mutations to the remote group list, in order. -/
def applyMutations (gid : String) (groups : List UserGroup) (muts : List Mutation) :
    List UserGroup :=
  muts.foldl (applyMutation gid) groups

/-- Invariant relating the two directory indexes: every person reachable
through `cncfByGithub` has its `slack_id` present as a key of `cncfBySlackID`. -/
def mapsInv (maps : UserMaps) : Prop :=
  ∀ k p, mget maps.cncfByGithub k = some p →
    ∃ q, mget maps.cncfBySlackID p.slack_id = some q

/-! Concrete fixtures used by the example-level theorems and witnesses. -/

/-- Directory person `a` with Slack id `U1`. -/
def personA : CncfPerson := ⟨"Alice Ada", "a@cncf.io", "a", "U1", "maintainer"⟩

/-- Directory person `b` with Slack id `U2`. -/
def personB : CncfPerson := ⟨"Bob Bit", "b@cncf.io", "b", "U2", "member"⟩

/-- Directory person `c` with Slack id `U3`. -/
def personC : CncfPerson := ⟨"Carol Car", "c@cncf.io", "c", "U3", "member"⟩

/-- Directory indexes over the three demo persons. -/
def demoMaps : UserMaps := getAllUsers [personA, personB, personC]

/-- Existing group whose members are `{U2, U3, U4}`. -/
def demoGroup : UserGroup := ⟨"G1", 0, "Infra Team", "infra", ["U2", "U3", "U4"], false⟩

/-- Team desiring members `{a, b, c}`, i.e. ids `{U1, U2, U3}`. -/
def demoTeam : TeamConfig := ⟨"infra", some "Infra Team", .flag true, [], ["a", "b", "c"]⟩

/-- Team listing the same username as maintainer and member. -/
def dupTeam : TeamConfig := ⟨"infra", none, .flag true, ["a"], ["a"]⟩

/-- Group already containing exactly the one desired member. -/
def dupGroup : UserGroup := ⟨"G1", 0, "infra", "infra", ["U1"], false⟩

/-- Directory person whose stored GitHub username contains an uppercase letter. -/
def upperPerson : CncfPerson := ⟨"Alice Ada", "a@cncf.io", "Alice", "U7", "maintainer"⟩

/-- Directory index over `upperPerson` alone. -/
def upperMaps : UserMaps := getAllUsers [upperPerson]

/-- Team listing the username exactly as stored, `Alice`. -/
def upperTeam : TeamConfig := ⟨"infra", none, .flag true, [], ["Alice"]⟩

/-- Directory person with no Slack id. -/
def noSlackPerson : CncfPerson := ⟨"Dan Dim", "d@cncf.io", "d", "", "member"⟩

/-- A disabled (deleted) group: `date_delete ≠ 0`, not external. -/
def deletedGroup : UserGroup := ⟨"G9", 999, "Old Name", "infra", ["U9"], false⟩

/-- An external group, filtered out by `getAllGroups`. -/
def externalGroup : UserGroup := ⟨"G8", 0, "Ext", "ext", [], true⟩

/-- A group already converged with `demoTeam`'s desired state. -/
def convGroup : UserGroup := ⟨"G1", 0, "Infra Team", "infra", ["U1", "U2", "U3"], false⟩

/-! Helper lemmas about the sorting model. -/

theorem jsSort_nil : jsSort [] = [] := rfl

theorem mem_insertSortedStr {a x : String} {l : List String} :
    a ∈ insertSortedStr x l ↔ a = x ∨ a ∈ l := by
  induction l with
  | nil => simp [insertSortedStr]
  | cons y ys ih =>
    simp only [insertSortedStr]
    split
    · simp
    · simp only [List.mem_cons, ih]
      tauto

theorem mem_jsSort {a : String} {l : List String} : a ∈ jsSort l ↔ a ∈ l := by
  induction l with
  | nil => simp [jsSort]
  | cons x xs ih =>
    show a ∈ insertSortedStr x (jsSort xs) ↔ _
    rw [mem_insertSortedStr]
    simp [ih]

theorem charListLe_total {as bs : List Char} (h : charListLe as bs = false) :
    charListLe bs as = true := by
  induction as generalizing bs with
  | nil => simp [charListLe] at h
  | cons a as ih =>
    cases bs with
    | nil => rfl
    | cons b bs =>
      rw [charListLe] at h
      by_cases h1 : Nat.blt a.toNat b.toNat = true
      · rw [if_pos h1] at h
        exact absurd h (by simp)
      · rw [if_neg h1] at h
        by_cases h2 : Nat.blt b.toNat a.toNat = true
        · rw [charListLe, if_pos h2]
        · rw [if_neg h2] at h
          rw [charListLe, if_neg h2, if_neg h1]
          exact ih h

theorem strLe_total {x y : String} (h : strLe x y = false) : strLe y x = true :=
  charListLe_total h

theorem chain_insertSortedStr {x : String} {l : List String}
    (h : List.Chain' (fun a b => strLe a b = true) l) :
    List.Chain' (fun a b => strLe a b = true) (insertSortedStr x l) := by
  induction l with
  | nil => simp [insertSortedStr]
  | cons y ys ih =>
    rw [insertSortedStr]
    split
    · rename_i h1
      exact List.chain'_cons.mpr ⟨h1, h⟩
    · rename_i h1
      have h1f : strLe x y = false := by
        cases hxy : strLe x y
        · rfl
        · exact absurd hxy h1
      rcases List.chain'_cons'.mp h with ⟨hyh, hys⟩
      refine List.chain'_cons'.mpr ⟨?_, ih hys⟩
      intro z hz
      cases ys with
      | nil =>
        simp only [insertSortedStr, List.head?_cons, Option.mem_def, Option.some.injEq] at hz
        subst hz
        exact strLe_total h1f
      | cons w ws =>
        rw [insertSortedStr] at hz
        split at hz
        · simp only [List.head?_cons, Option.mem_def, Option.some.injEq] at hz
          subst hz
          exact strLe_total h1f
        · simp only [List.head?_cons, Option.mem_def, Option.some.injEq] at hz
          subst hz
          exact hyh w rfl

theorem chain_jsSort (l : List String) :
    List.Chain' (fun a b => strLe a b = true) (jsSort l) := by
  induction l with
  | nil => simp [jsSort]
  | cons x xs ih => exact chain_insertSortedStr ih

theorem jsSort_of_chain {l : List String}
    (h : List.Chain' (fun a b => strLe a b = true) l) : jsSort l = l := by
  induction l with
  | nil => rfl
  | cons x xs ih =>
    rcases List.chain'_cons'.mp h with ⟨hx, hxs⟩
    show insertSortedStr x (jsSort xs) = x :: xs
    rw [ih hxs]
    cases xs with
    | nil => rfl
    | cons y ys => rw [insertSortedStr, if_pos (hx y rfl)]

theorem jsSort_idem (l : List String) : jsSort (jsSort l) = jsSort l :=
  jsSort_of_chain (chain_jsSort l)

/-! Helper lemmas about `List.find?` and `mget`. -/

theorem find?_map_pres {f : UserGroup → UserGroup} {p : UserGroup → Bool}
    (hp : ∀ x, p (f x) = p x) (l : List UserGroup) :
    (l.map f).find? p = (l.find? p).map f := by
  induction l with
  | nil => rfl
  | cons x xs ih =>
    cases hx : p x with
    | true =>
      rw [List.map_cons, List.find?_cons_of_pos _ (by rw [hp x]; exact hx),
          List.find?_cons_of_pos _ hx]
      rfl
    | false =>
      rw [List.map_cons, List.find?_cons_of_neg _ (by simp [hp x, hx]),
          List.find?_cons_of_neg _ (by simp [hx])]
      exact ih

theorem find?_append_none {p : UserGroup → Bool} {l1 l2 : List UserGroup}
    (h : l1.find? p = none) : (l1 ++ l2).find? p = l2.find? p := by
  induction l1 with
  | nil => rfl
  | cons x xs ih =>
    cases hx : p x with
    | true =>
      rw [List.find?_cons_of_pos _ hx] at h
      exact absurd h (by simp)
    | false =>
      rw [List.find?_cons_of_neg _ (by simp [hx])] at h
      rw [List.cons_append, List.find?_cons_of_neg _ (by simp [hx])]
      exact ih h

theorem mget_cons (k1 : String) (v : CncfPerson) (m : List (String × CncfPerson))
    (k : String) : mget ((k1, v) :: m) k = if k1 == k then some v else mget m k := by
  unfold mget
  cases hc : (k1 == k) with
  | true =>
    rw [List.find?_cons_of_pos _ (by simpa using hc)]
    simp [hc]
  | false =>
    rw [List.find?_cons_of_neg _ (by simpa using hc)]
    simp [hc]

/-! Helper lemmas about the reconciler. -/

theorem renameEvents_of_eq {g : UserGroup} {ugName : String} (h : g.name = ugName) :
    renameEvents g ugName = [] := by
  simp [renameEvents, h]

theorem renameMuts_of_eq {dr : Bool} {g : UserGroup} {ugName : String}
    (h : g.name = ugName) : renameMuts dr g ugName = [] := by
  simp [renameMuts, h]

theorem memberEvents_of_eq {maps : UserMaps} {g : UserGroup} {expected : List String}
    (h : jsSort g.users = jsSort expected) : memberEvents maps g expected = [] := by
  simp [memberEvents, h]

theorem memberMuts_of_eq {dr : Bool} {g : UserGroup} {expected : List String}
    (h : jsSort g.users = jsSort expected) : memberMuts dr g expected = [] := by
  simp [memberMuts, h]

theorem renameMuts_dry (g : UserGroup) (ugName : String) : renameMuts true g ugName = [] := by
  unfold renameMuts
  split <;> simp

theorem memberMuts_dry (g : UserGroup) (expected : List String) :
    memberMuts true g expected = [] := by
  unfold memberMuts
  split <;> simp

theorem handleTeam_converged {t : TeamConfig} {groups : List UserGroup} {maps : UserMaps}
    {dr : Bool} {gid gName : String} {g : UserGroup}
    (h1 : resolveHandle t = some gName)
    (h2 : groups.find? (fun x => x.handle == gName) = some g)
    (h3 : g.name = userGroupNameOf t)
    (h4 : jsSort g.users = jsSort (resolveExpected t maps)) :
    handleTeam t groups maps dr gid = ([], []) := by
  simp only [handleTeam, h1, h2, renameEvents_of_eq h3, renameMuts_of_eq h3,
    memberEvents_of_eq h4, memberMuts_of_eq h4, List.append_nil]

theorem mkNewGroup_name (a b c : String) : (mkNewGroup a b c).name = b := rfl

theorem mkNewGroup_handle (a b c : String) : (mkNewGroup a b c).handle = a := rfl

theorem mkNewGroup_id (a b c : String) : (mkNewGroup a b c).id = c := rfl

theorem mkNewGroup_users (a b c : String) : (mkNewGroup a b c).users = [] := rfl

theorem handle_setUsers (ugid : String) (us : List String) (x : UserGroup) :
    (if x.id == ugid then { x with users := us } else x).handle = x.handle := by
  split <;> rfl

theorem handle_renameUpd (ugid nn : String) (x : UserGroup) :
    (if x.id == ugid then { x with name := nn } else x).handle = x.handle := by
  split <;> rfl

theorem handleTeam_rerun (t : TeamConfig) (groups : List UserGroup) (maps : UserMaps)
    (gid gid2 : String) (dr2 : Bool) :
    (handleTeam t (applyMutations gid groups (handleTeam t groups maps false gid).2)
        maps dr2 gid2).1 = [] := by
  cases hrh : resolveHandle t with
  | none => simp [handleTeam, hrh, applyMutations]
  | some gName =>
    cases hf : groups.find? (fun g => g.handle == gName) with
    | some g =>
      cases hn : g.name == userGroupNameOf t with
      | true =>
        cases hm : jsSort g.users == jsSort (resolveExpected t maps) with
        | true =>
          have hmut : (handleTeam t groups maps false gid).2 = [] := by
            simp [handleTeam, hrh, hf, renameMuts, memberMuts, hn, hm]
          rw [hmut]
          have heq : applyMutations gid groups [] = groups := rfl
          rw [heq, handleTeam_converged hrh hf (by simpa using hn) (by simpa using hm)]
        | false =>
          have hmut : (handleTeam t groups maps false gid).2
              = [Mutation.setUsers g.id (jsSort (resolveExpected t maps))] := by
            simp [handleTeam, hrh, hf, renameMuts, memberMuts, hn, hm]
          rw [hmut]
          have heq : applyMutations gid groups
                [Mutation.setUsers g.id (jsSort (resolveExpected t maps))]
              = groups.map (fun x => if x.id == g.id
                  then { x with users := jsSort (resolveExpected t maps) } else x) := rfl
          have hfind : (applyMutations gid groups
                [Mutation.setUsers g.id (jsSort (resolveExpected t maps))]).find?
                  (fun x => x.handle == gName)
              = some { g with users := jsSort (resolveExpected t maps) } := by
            rw [heq, find?_map_pres (fun x => by rw [handle_setUsers]) groups, hf]
            simp
          rw [handleTeam_converged hrh hfind (by simpa using hn) (jsSort_idem _)]
      | false =>
        cases hm : jsSort g.users == jsSort (resolveExpected t maps) with
        | true =>
          have hmut : (handleTeam t groups maps false gid).2
              = [Mutation.updateGroupName g.id (userGroupNameOf t)] := by
            simp [handleTeam, hrh, hf, renameMuts, memberMuts, hn, hm]
          rw [hmut]
          have heq : applyMutations gid groups
                [Mutation.updateGroupName g.id (userGroupNameOf t)]
              = groups.map (fun x => if x.id == g.id
                  then { x with name := userGroupNameOf t } else x) := rfl
          have hfind : (applyMutations gid groups
                [Mutation.updateGroupName g.id (userGroupNameOf t)]).find?
                  (fun x => x.handle == gName)
              = some { g with name := userGroupNameOf t } := by
            rw [heq, find?_map_pres (fun x => by rw [handle_renameUpd]) groups, hf]
            simp
          rw [handleTeam_converged hrh hfind rfl (by simpa using hm)]
        | false =>
          have hmut : (handleTeam t groups maps false gid).2
              = [Mutation.updateGroupName g.id (userGroupNameOf t),
                 Mutation.setUsers g.id (jsSort (resolveExpected t maps))] := by
            simp [handleTeam, hrh, hf, renameMuts, memberMuts, hn, hm]
          rw [hmut]
          have heq : applyMutations gid groups
                [Mutation.updateGroupName g.id (userGroupNameOf t),
                 Mutation.setUsers g.id (jsSort (resolveExpected t maps))]
              = (groups.map (fun x => if x.id == g.id
                    then { x with name := userGroupNameOf t } else x)).map
                  (fun x => if x.id == g.id
                    then { x with users := jsSort (resolveExpected t maps) } else x) := rfl
          have hfind : (applyMutations gid groups
                [Mutation.updateGroupName g.id (userGroupNameOf t),
                 Mutation.setUsers g.id (jsSort (resolveExpected t maps))]).find?
                  (fun x => x.handle == gName)
              = some { g with name := userGroupNameOf t,
                              users := jsSort (resolveExpected t maps) } := by
            rw [heq, find?_map_pres (fun x => by rw [handle_setUsers]) _,
                find?_map_pres (fun x => by rw [handle_renameUpd]) groups, hf]
            simp
          rw [handleTeam_converged hrh hfind rfl (jsSort_idem _)]
    | none =>
      cases hm : (([] : List String) == jsSort (resolveExpected t maps)) with
      | true =>
        have hmut : (handleTeam t groups maps false gid).2
            = [Mutation.createGroup gName (userGroupNameOf t)] := by
          simp [handleTeam, hrh, hf, renameMuts, memberMuts,
            mkNewGroup_name, mkNewGroup_users, mkNewGroup_id, jsSort_nil, hm]
        rw [hmut]
        have heq : applyMutations gid groups [Mutation.createGroup gName (userGroupNameOf t)]
            = groups ++ [mkNewGroup gName (userGroupNameOf t) gid] := rfl
        have hfind : (applyMutations gid groups
              [Mutation.createGroup gName (userGroupNameOf t)]).find?
                (fun x => x.handle == gName)
            = some (mkNewGroup gName (userGroupNameOf t) gid) := by
          rw [heq, find?_append_none hf]
          exact List.find?_cons_of_pos _ (by simp [mkNewGroup_handle])
        rw [handleTeam_converged hrh hfind rfl
          (by simpa [mkNewGroup_users, jsSort_nil] using hm)]
      | false =>
        have hmut : (handleTeam t groups maps false gid).2
            = [Mutation.createGroup gName (userGroupNameOf t),
               Mutation.setUsers gid (jsSort (resolveExpected t maps))] := by
          simp [handleTeam, hrh, hf, renameMuts, memberMuts,
            mkNewGroup_name, mkNewGroup_users, mkNewGroup_id, jsSort_nil, hm]
        rw [hmut]
        have heq : applyMutations gid groups
              [Mutation.createGroup gName (userGroupNameOf t),
               Mutation.setUsers gid (jsSort (resolveExpected t maps))]
            = (groups ++ [mkNewGroup gName (userGroupNameOf t) gid]).map
                (fun x => if x.id == gid
                  then { x with users := jsSort (resolveExpected t maps) } else x) := rfl
        have hfind : (applyMutations gid groups
              [Mutation.createGroup gName (userGroupNameOf t),
               Mutation.setUsers gid (jsSort (resolveExpected t maps))]).find?
                (fun x => x.handle == gName)
            = some { mkNewGroup gName (userGroupNameOf t) gid with
                     users := jsSort (resolveExpected t maps) } := by
          rw [heq, find?_map_pres (fun x => by rw [handle_setUsers]) _,
              find?_append_none hf, List.find?_cons_of_pos _ (by simp [mkNewGroup_handle])]
          simp [mkNewGroup_id]
        rw [handleTeam_converged hrh hfind rfl (jsSort_idem _)]

/-! Helper lemmas about the directory indexes. -/

theorem indexPerson_inv {maps : UserMaps} (e : CncfPerson) (h : mapsInv maps) :
    mapsInv (indexPerson maps e) := by
  unfold indexPerson
  split
  · exact h
  · intro k p hp
    rw [mget_cons] at hp
    by_cases hc : (normalizeGithub e.github == k) = true
    · rw [if_pos hc] at hp
      obtain rfl : ({ e with github := normalizeGithub e.github } : CncfPerson) = p :=
        Option.some.inj hp
      refine ⟨{ e with github := normalizeGithub e.github }, ?_⟩
      rw [mget_cons, if_pos (by simp)]
    · rw [if_neg hc] at hp
      obtain ⟨q, hq⟩ := h k p hp
      by_cases h2 : (e.slack_id == p.slack_id) = true
      · exact ⟨{ e with github := normalizeGithub e.github }, by rw [mget_cons, if_pos h2]⟩
      · exact ⟨q, by rw [mget_cons, if_neg h2]; exact hq⟩

theorem foldl_indexPerson_inv (people : List CncfPerson) :
    ∀ maps : UserMaps, mapsInv maps → mapsInv (people.foldl indexPerson maps) := by
  induction people with
  | nil => exact fun maps h => h
  | cons e rest ih => exact fun maps h => ih _ (indexPerson_inv e h)

theorem getAllUsers_inv (people : List CncfPerson) : mapsInv (getAllUsers people) := by
  apply foldl_indexPerson_inv
  intro k p hp
  simp [mget, List.find?] at hp

theorem indexPerson_skip {e : CncfPerson} (h : e.slack_id = "") (maps : UserMaps) :
    indexPerson maps e = maps := by
  rw [indexPerson, if_pos (by simp [h])]

/-! Claim theorems. -/

/-- C1 counterexample: a username listed in both `maintainers` and `members`
contributes its directory id twice, not once.  With `dupTeam` (username `a` in
both lists, resolving to Slack id `U1`) and a group already containing exactly
`U1`, the membership comparison fails against the duplicated list and the
`setMembers` payload contains the duplicate id `U1` twice — contradicting the
claim that duplicates collapse and that the payload contains no duplicate ids. -/
theorem c1_counterexample :
    handleTeam dupTeam [dupGroup] demoMaps false "X"
      = ([], [Mutation.setUsers "G1" ["U1", "U1"]]) := by decide

/-- C1 amended: the desired membership list is built from
`maintainers ++ members` with no deduplication — each occurrence of a
resolvable username contributes one directory id, so a username listed in both
sets contributes its id at least twice (and the diff comparison and the
`setMembers` payload may therefore contain duplicate ids). -/
theorem c1_amended (t : TeamConfig) (maps : UserMaps) (u : String) (p : CncfPerson)
    (h1 : u ∈ t.maintainers) (h2 : u ∈ t.members)
    (h3 : mget maps.cncfByGithub (jsToLower u) = some p) :
    2 ≤ (resolveExpected t maps).count p.slack_id := by
  rw [resolveExpected, List.filterMap_append, List.count_append]
  have hmem1 : p.slack_id ∈ t.maintainers.filterMap
      (fun username => (mget maps.cncfByGithub (jsToLower username)).map
        (fun q => q.slack_id)) :=
    List.mem_filterMap.mpr ⟨u, h1, by rw [h3]; rfl⟩
  have hmem2 : p.slack_id ∈ t.members.filterMap
      (fun username => (mget maps.cncfByGithub (jsToLower username)).map
        (fun q => q.slack_id)) :=
    List.mem_filterMap.mpr ⟨u, h2, by rw [h3]; rfl⟩
  have hc1 := List.count_pos_iff.mpr hmem1
  have hc2 := List.count_pos_iff.mpr hmem2
  omega

/-- C1 amended witness: instantiates the amended claim on `dupTeam`, where the
resolved desired list is `["U1", "U1"]`. -/
theorem c1_amended_witness :
    2 ≤ (resolveExpected dupTeam demoMaps).count personA.slack_id :=
  c1_amended dupTeam demoMaps "a" personA (by decide) (by decide) (by decide)

/-- C2 counterexample: the claim says a team username resolves to a directory
person whenever it equals the stored (stripped) GitHub username up to letter
case.  The code lowercases only the query side, so the stored username
`Alice` — present in the index — is not matched even by the identical team
username `Alice`, and the team member produces nothing (no id, no event). -/
theorem c2_counterexample :
    mget upperMaps.cncfByGithub "Alice" = some upperPerson
    ∧ resolveExpected upperTeam upperMaps = []
    ∧ handleTeam upperTeam [⟨"G1", 0, "infra", "infra", [], false⟩] upperMaps false "X"
        = ([], []) := by decide

/-- C2 amended: matching lowercases only the team-side username — two team
spellings that agree after lowercasing resolve identically (case-insensitivity
on the team side), but a stored username that is not entirely lowercase is
never matched: `Alice` in the directory is matched neither by `alice` nor by
`ALICE` (nor, per the counterexample, by `Alice` itself). -/
theorem c2_amended :
    (∀ (maps : UserMaps) (t1 t2 : TeamConfig),
        t1.maintainers.map jsToLower = t2.maintainers.map jsToLower →
        t1.members.map jsToLower = t2.members.map jsToLower →
        resolveExpected t1 maps = resolveExpected t2 maps)
    ∧ resolveExpected ⟨"infra", none, .flag true, [], ["alice"]⟩ upperMaps = []
    ∧ resolveExpected ⟨"infra", none, .flag true, [], ["ALICE"]⟩ upperMaps = [] := by
  refine ⟨?_, by decide, by decide⟩
  intro maps t1 t2 hm hb
  have key : ∀ l1 l2 : List String, l1.map jsToLower = l2.map jsToLower →
      l1.filterMap (fun username => (mget maps.cncfByGithub (jsToLower username)).map
          (fun p => p.slack_id))
        = l2.filterMap (fun username => (mget maps.cncfByGithub (jsToLower username)).map
          (fun p => p.slack_id)) := by
    intro l1
    induction l1 with
    | nil =>
      intro l2 hl
      cases l2 with
      | nil => rfl
      | cons b bs => simp at hl
    | cons a as ih =>
      intro l2 hl
      cases l2 with
      | nil => simp at hl
      | cons b bs =>
        simp only [List.map_cons, List.cons.injEq] at hl
        obtain ⟨hab, hasbs⟩ := hl
        rw [List.filterMap_cons, List.filterMap_cons, hab, ih bs hasbs]
  rw [resolveExpected, resolveExpected, List.filterMap_append, List.filterMap_append,
    key _ _ hm, key _ _ hb]

/-- C2 amended witness: `Bob` and `bOB` lowercase identically, so they resolve
to the same id list. -/
theorem c2_amended_witness :
    resolveExpected ⟨"infra", none, .flag true, [], ["Bob"]⟩ demoMaps
      = resolveExpected ⟨"infra", none, .flag true, [], ["bOB"]⟩ demoMaps :=
  c2_amended.1 demoMaps ⟨"infra", none, .flag true, [], ["Bob"]⟩
    ⟨"infra", none, .flag true, [], ["bOB"]⟩ (by decide) (by decide)

/-- C3, code bug: `englishCommaJoin` takes `arr.slice(0, arr.length - 2)`,
silently dropping the second-to-last element.  A single identity renders
unchanged, but `["A", "B"]` renders as `" and B"` (not `"A and B"`) and
`["A", "B", "C"]` renders as `"A and C"` (not `"A, B and C"`): an element is
dropped from every list of two or more, contradicting the evident intent of
the and-joined report message. -/
theorem c3_join_drops_second_last :
    englishCommaJoin ["A"] = "A"
    ∧ englishCommaJoin ["A", "B"] = " and B"
    ∧ englishCommaJoin ["A", "B", "C"] = "A and C"
    ∧ englishCommaJoin ["A", "B", "C", "D"] = "A, B and D" := by decide

/-- C4: a team whose matched group already carries the desired display name
and whose sorted member ids equal the sorted resolved desired ids produces no
change event and no mutation in either mode; and, in general, a second run
immediately after applying a live run's mutations emits zero events. -/
theorem c4_converged_noop_and_idempotent (t : TeamConfig) (groups : List UserGroup)
    (maps : UserMaps) (dr : Bool) (gid gName : String) (g : UserGroup)
    (h1 : resolveHandle t = some gName)
    (h2 : groups.find? (fun x => x.handle == gName) = some g)
    (h3 : g.name = userGroupNameOf t)
    (h4 : jsSort g.users = jsSort (resolveExpected t maps)) :
    handleTeam t groups maps dr gid = ([], [])
    ∧ ∀ (t2 : TeamConfig) (groups2 : List UserGroup) (maps2 : UserMaps)
        (gidA gidB : String) (drB : Bool),
        (handleTeam t2 (applyMutations gidA groups2
            (handleTeam t2 groups2 maps2 false gidA).2) maps2 drB gidB).1 = [] :=
  ⟨handleTeam_converged h1 h2 h3 h4,
   fun t2 groups2 maps2 gidA gidB drB => handleTeam_rerun t2 groups2 maps2 gidA gidB drB⟩

/-- C4 witness: a converged fixture produces no event and no mutation, and a
second run after applying a live run's output on a non-converged fixture
(`deletedGroup` needs a rename and a membership update) emits zero events. -/
theorem c4_witness :
    handleTeam demoTeam [convGroup] demoMaps false "X" = ([], [])
    ∧ (handleTeam demoTeam (applyMutations "Y" [deletedGroup]
        (handleTeam demoTeam [deletedGroup] demoMaps false "Y").2) demoMaps false "Z").1
      = [] := by
  have h := c4_converged_noop_and_idempotent demoTeam [convGroup] demoMaps false "X"
    "infra" convGroup rfl rfl rfl rfl
  exact ⟨h.1, h.2 demoTeam [deletedGroup] demoMaps "Y" "Z" false⟩

/-- C5: on identical inputs, dry-run and live mode emit structurally identical
change-event sequences, and the dry run issues no mutation (in the creation
branch the dry run substitutes the placeholder id `NEW_USER_GROUP_ID`, which
no event mentions). -/
theorem c5_dry_run_parity (t : TeamConfig) (groups : List UserGroup) (maps : UserMaps)
    (gidA gidB : String) :
    (handleTeam t groups maps true gidA).1 = (handleTeam t groups maps false gidB).1
    ∧ (handleTeam t groups maps true gidA).2 = [] := by
  cases hrh : resolveHandle t with
  | none => simp [handleTeam, hrh]
  | some gName =>
    cases hf : groups.find? (fun g => g.handle == gName) with
    | some g =>
      constructor
      · simp only [handleTeam, hrh, hf]
      · simp only [handleTeam, hrh, hf]
        rw [renameMuts_dry, memberMuts_dry]
        rfl
    | none =>
      constructor
      · simp only [handleTeam, hrh, hf]
        rfl
      · simp only [handleTeam, hrh, hf]
        rw [renameMuts_dry, memberMuts_dry]
        rfl

/-- C6: when no existing group matches the resolved handle, the event list
starts with exactly one group-created event carrying that handle, everything
after it is a members-added event (never a rename, never a removal, never a
second creation), and the live-mode creation call sets the group name to
`team.displayName` when set, else `team.name` (the first mutation issued). -/
theorem c6_creation_path (t : TeamConfig) (groups : List UserGroup) (maps : UserMaps)
    (dr : Bool) (gid gName : String)
    (h1 : resolveHandle t = some gName)
    (h2 : groups.find? (fun g => g.handle == gName) = none) :
    ∃ rest, (handleTeam t groups maps dr gid).1 = ChangeEvent.groupCreated gName :: rest
      ∧ (∀ e ∈ rest, ∃ ids, e = ChangeEvent.membersAdded gName ids)
      ∧ (handleTeam t groups maps false gid).2.head?
          = some (Mutation.createGroup gName (userGroupNameOf t)) := by
  refine ⟨renameEvents (mkNewGroup gName (userGroupNameOf t)
        (if dr then "NEW_USER_GROUP_ID" else gid)) (userGroupNameOf t) ++
      memberEvents maps (mkNewGroup gName (userGroupNameOf t)
        (if dr then "NEW_USER_GROUP_ID" else gid)) (resolveExpected t maps),
    ?_, ?_, ?_⟩
  · simp only [handleTeam, h1, h2]
  · intro e he
    generalize (if dr then "NEW_USER_GROUP_ID" else gid) = gidX at he
    rw [renameEvents_of_eq (mkNewGroup_name _ _ _), List.nil_append] at he
    simp only [memberEvents, toRemoveIds, toAddIds, mkNewGroup_users, mkNewGroup_handle,
      jsSort_nil, List.filter_nil, List.map_nil, List.isEmpty_nil] at he
    split at he
    · simp at he
    · simp at he
      exact ⟨_, he.2⟩
  · simp only [handleTeam, h1, h2]
    rfl

/-- C6 witness: creating the `infra` group from an empty group list. -/
theorem c6_witness :
    ∃ rest, (handleTeam demoTeam [] demoMaps true "X").1
        = ChangeEvent.groupCreated "infra" :: rest
      ∧ (∀ e ∈ rest, ∃ ids, e = ChangeEvent.membersAdded "infra" ids)
      ∧ (handleTeam demoTeam [] demoMaps false "X").2.head?
          = some (Mutation.createGroup "infra" (userGroupNameOf demoTeam)) :=
  c6_creation_path demoTeam [] demoMaps true "X" "infra" rfl rfl

/-- C7: the membership diff is exact — an id is in the add list iff it is
desired and not current, and in the remove list iff it is current and not
desired; on the claim's example (desired `{U1,U2,U3}`, current `{U2,U3,U4}`)
exactly one removal (`U4`, reported as `<@U4>` since the directory no longer
knows it) and one addition (`U1`, reported as username `a`) are emitted, and a
still-resolvable removed id is reported as its quoted username. -/
theorem c7_diff_correctness :
    (∀ (current expected : List String) (uid : String),
        (uid ∈ toAddIds (jsSort current) (jsSort expected)
          ↔ uid ∈ expected ∧ uid ∉ current)
      ∧ (uid ∈ toRemoveIds (jsSort current) (jsSort expected)
          ↔ uid ∈ current ∧ uid ∉ expected))
    ∧ handleTeam demoTeam [demoGroup] demoMaps false "X"
        = ([ChangeEvent.membersRemoved "infra" ["<@U4>"],
            ChangeEvent.membersAdded "infra" ["a"]],
           [Mutation.setUsers "G1" ["U1", "U2", "U3"]])
    ∧ removeIdentity demoMaps "U2" = "`b`" := by
  refine ⟨?_, by decide, by decide⟩
  intro current expected uid
  constructor
  · rw [toAddIds]
    simp [List.mem_filter, mem_jsSort]
  · rw [toRemoveIds]
    simp [List.mem_filter, mem_jsSort]

/-- C8: the non-null assertion on line 172 never fails — every id in the
resolved desired list came from a person that `getAllUsers` indexed under both
its GitHub name and its Slack id, so the reverse lookup by Slack id always
returns a person, and the add-identity is that person's `github` field (the
`undefined` fallback of the model is unreachable). -/
theorem c8_add_lookup_total (people : List CncfPerson) (t : TeamConfig) (uid : String)
    (h : uid ∈ resolveExpected t (getAllUsers people)) :
    ∃ q, mget (getAllUsers people).cncfBySlackID uid = some q
      ∧ addIdentity (getAllUsers people) uid = q.github := by
  rw [resolveExpected] at h
  obtain ⟨username, hmem, heq⟩ := List.mem_filterMap.mp h
  cases hg : mget (getAllUsers people).cncfByGithub (jsToLower username) with
  | none =>
    rw [hg] at heq
    exact absurd heq (by simp)
  | some p =>
    rw [hg] at heq
    have hid : p.slack_id = uid := Option.some.inj heq
    obtain ⟨q, hq⟩ := getAllUsers_inv people (jsToLower username) p hg
    rw [hid] at hq
    exact ⟨q, hq, by rw [addIdentity, hq]⟩

/-- C8 witness: the one resolved id `U1` of `personA` is reverse-resolvable. -/
theorem c8_witness :
    ∃ q, mget (getAllUsers [personA]).cncfBySlackID "U1" = some q
      ∧ addIdentity (getAllUsers [personA]) "U1" = q.github :=
  c8_add_lookup_total [personA] ⟨"infra", none, .flag true, [], ["a"]⟩ "U1" (by decide)

/-- C9: a directory entry whose `slack_id` is the empty string is skipped at
indexing time, so the built indexes — and with them every `handleTeam`
output — are identical to those built from the people list without that entry:
a team username pointing at such an entry behaves exactly like one with no
directory record at all (no desired id, no event). -/
theorem c9_no_slack_id_invisible (xs ys : List CncfPerson) (e : CncfPerson)
    (h : e.slack_id = "") (t : TeamConfig) (groups : List UserGroup)
    (dr : Bool) (gid : String) :
    getAllUsers (xs ++ e :: ys) = getAllUsers (xs ++ ys)
    ∧ handleTeam t groups (getAllUsers (xs ++ e :: ys)) dr gid
        = handleTeam t groups (getAllUsers (xs ++ ys)) dr gid := by
  have hm : getAllUsers (xs ++ e :: ys) = getAllUsers (xs ++ ys) := by
    unfold getAllUsers
    rw [List.foldl_append, List.foldl_append, List.foldl_cons, indexPerson_skip h]
  exact ⟨hm, by rw [hm]⟩

/-- C9 witness: `noSlackPerson` (empty `slack_id`) is invisible to the indexes
and to a full `handleTeam` run. -/
theorem c9_witness :
    getAllUsers ([] ++ noSlackPerson :: [personA]) = getAllUsers ([] ++ [personA])
    ∧ handleTeam demoTeam [] (getAllUsers ([] ++ noSlackPerson :: [personA])) true "X"
        = handleTeam demoTeam [] (getAllUsers ([] ++ [personA])) true "X" :=
  c9_no_slack_id_invisible [] [personA] noSlackPerson rfl demoTeam [] true "X"

/-- C10: the group listing requests disabled groups (`include_disabled: true`,
with `include_users: true`) and filters only on the `is_external` flag — a
group is returned iff it was fetched and is not external, independent of its
deletion timestamp; concretely, the deleted group (`date_delete = 999`)
survives the filter while the external one is dropped, and the deleted group
is then matched by handle, renamed, and membership-mutated by `handleTeam`. -/
theorem c10_group_filter :
    usergroupsListRequest.include_disabled = true
    ∧ usergroupsListRequest.include_users = true
    ∧ (∀ (gs : List UserGroup) (g : UserGroup),
        g ∈ getAllGroups gs ↔ g ∈ gs ∧ g.is_external = false)
    ∧ getAllGroups [externalGroup, deletedGroup] = [deletedGroup]
    ∧ handleTeam demoTeam (getAllGroups [externalGroup, deletedGroup]) demoMaps false "X"
        = ([ChangeEvent.groupRenamed "infra" "Old Name" "Infra Team",
            ChangeEvent.membersRemoved "infra" ["<@U9>"],
            ChangeEvent.membersAdded "infra" ["a", "b", "c"]],
           [Mutation.updateGroupName "G9" "Infra Team",
            Mutation.setUsers "G9" ["U1", "U2", "U3"]]) := by
  refine ⟨rfl, rfl, ?_, by decide, by decide⟩
  intro gs g
  rw [getAllGroups]
  simp [List.mem_filter]
